import Mathlib

/-!
Shallow embedding of the Ghostpass credential-envelope core (`field.go`).

Modelling conventions:
- Go byte slices and strings are both modelled as `List Char` (one `Char`
  per byte); a nil slice is modelled as the empty list `[]`.
- The memguard enclave primitive (external) is modelled as a value that
  either yields its cleartext bytes on open or fails.
- The cipher primitive `BoxEncrypt` / `BoxDecrypt` lives outside the core
  source and is modelled from the spec as an abstract structure.
- Each operation returns its status (ok, a Go error value, or a runtime
  panic) together with the resulting state; Go methods that mutate the
  receiver are embedded as functions from the old `Field` to the new one.
-/

set_option autoImplicit false

namespace Ghostpass

abbrev Bytes := List Char

/-- Modelled from the spec: the guarded-secret-memory primitive (memguard
enclave), which is external to this core. It accepts bytes and yields a
transient readable view on demand; opening may fail if the secret was
already released or corrupted, so an enclave is modelled by the outcome of
opening it: `some bytes` when open succeeds, `none` when it fails. -/
structure Enclave where
  contents : Option Bytes
deriving DecidableEq

/-- Sealing cleartext bytes into a fresh enclave, as done by
memguard NewBufferFromBytes followed by Seal: opening yields the bytes. -/
def Enclave.guard (b : Bytes) : Enclave := ⟨some b⟩

/-- Modelled from the spec: the symmetric authenticated-encryption
primitive, external to this core, with contract seal(key, plaintext) to
ciphertext and open(key, ciphertext) to plaintext or error. `none` is the
error outcome. Per the spec the ciphertext is self-describing (it embeds
the nonce and authentication tag internally) and the authPair produced by
sealing is non-empty after successful construction, so a successful seal
never returns an empty ciphertext. -/
structure Cipher where
  boxEncrypt : Bytes → Bytes → Option Bytes
  boxDecrypt : Bytes → Bytes → Option Bytes
  seal_nonempty : ∀ k m c, boxEncrypt k m = some c → c ≠ []

/-- The `Field` struct of field.go: guarded username and password handles
(nilable pointers, hence `Option`), the persisted authenticated ciphertext
`AuthPair`, and the list of raw deniable pairs. -/
structure Field where
  Username : Option Enclave
  Pwd : Option Enclave
  AuthPair : Bytes
  DeniablePairs : List Bytes
deriving DecidableEq

/-- Go error values that the field operations can produce: the literal
"No secret in field" error, a propagated cipher error, and a propagated
enclave-open error. -/
inductive FieldError where
  | noSecretInField
  | cipherError
  | enclaveError
deriving DecidableEq

/-- Status of an operation: normal return, error return, or a Go runtime
panic (such as an out-of-range slice index). -/
inductive RStatus where
  | ok
  | err (e : FieldError)
  | panicked
deriving DecidableEq

/-- Go strings.Split(s, sep) for the one-byte separator used by field.go:
splits on every occurrence of the colon and always returns at least one
component. -/
def splitColon : Bytes → List Bytes
  | [] => [[]]
  | c :: rest =>
    if c = ':' then [] :: splitColon rest
    else
      match splitColon rest with
      | [] => [[c]]
      | s :: ss => (c :: s) :: ss

/-- NewField of field.go: open the password enclave, build the plaintext
username ++ colon ++ cleartext, encrypt it with the key, and return a
fully populated field; errors from the enclave open or from BoxEncrypt
are returned with no field. -/
def NewField (C : Cipher) (key : Bytes) (username : Bytes) (pwd : Enclave) :
    RStatus × Option Field :=
  match pwd.contents with
  | none => (.err .enclaveError, none)
  | some clearpwd =>
    let secretstr := username ++ ':' :: clearpwd
    match C.boxEncrypt key secretstr with
    | none => (.err .cipherError, none)
    | some secret =>
      (.ok, some { Username := some (Enclave.guard username)
                   Pwd := some pwd
                   AuthPair := secret
                   DeniablePairs := [] })

/-- RederiveAuthPair of field.go: guard against a nil AuthPair, decrypt it,
split the plaintext on every colon, and take components 0 and 1 as the new
username and password handles. Indexing creds at 1 panics when the
plaintext holds no colon (the split then has a single component). On a
normal or error return the second component is the post-state of the
receiver. -/
def RederiveAuthPair (C : Cipher) (key : Bytes) (f : Field) :
    RStatus × Field :=
  if f.AuthPair = [] then (.err .noSecretInField, f)
  else
    match C.boxDecrypt key f.AuthPair with
    | none => (.err .cipherError, f)
    | some plaintext =>
      match splitColon plaintext with
      | user :: pwd :: _ =>
        (.ok, { f with Username := some (Enclave.guard user)
                       Pwd := some (Enclave.guard pwd) })
      | _ => (.panicked, f)

/-- ReconstructField of field.go: build a zero-valued field holding only
the compressed AuthPair and delegate to RederiveAuthPair; on success the
populated field is returned, otherwise no field. -/
def ReconstructField (C : Cipher) (key : Bytes) (compressed : Bytes) :
    RStatus × Option Field :=
  let field : Field :=
    { Username := none, Pwd := none, AuthPair := compressed, DeniablePairs := [] }
  match RederiveAuthPair C key field with
  | (.ok, g) => (.ok, some g)
  | (s, _) => (s, none)

/-- AddDeniableSecret of field.go: open the password enclave, build the
plaintext username ++ colon ++ cleartext, and append its raw bytes to
DeniablePairs; an enclave-open error is returned with the field
untouched. -/
def AddDeniableSecret (f : Field) (username : Bytes) (pwd : Enclave) :
    RStatus × Field :=
  match pwd.contents with
  | none => (.err .enclaveError, f)
  | some clearpwd =>
    (.ok, { f with
              DeniablePairs := f.DeniablePairs ++ [username ++ ':' :: clearpwd] })

/-- Cleartext obtained by opening the username handle of a field. -/
def Field.openUser (f : Field) : Option Bytes :=
  f.Username.bind Enclave.contents

/-- Cleartext obtained by opening the password handle of a field. -/
def Field.openPwd (f : Field) : Option Bytes :=
  f.Pwd.bind Enclave.contents

theorem splitColon_ne_nil (xs : Bytes) : splitColon xs ≠ [] := by
  match xs with
  | [] => simp [splitColon]
  | c :: rest =>
    simp only [splitColon]
    by_cases hc : c = ':'
    · simp [hc]
    · simp only [if_neg hc]
      cases h : splitColon rest <;> simp

theorem splitColon_of_no_colon (xs : Bytes) (h : ':' ∉ xs) :
    splitColon xs = [xs] := by
  induction xs with
  | nil => rfl
  | cons c rest ih =>
    have hc : c ≠ ':' := fun e => h (e ▸ List.mem_cons_self c rest)
    have hrest : ':' ∉ rest := fun m => h (List.mem_cons_of_mem _ m)
    simp only [splitColon, if_neg hc, ih hrest]

theorem splitColon_append (u p : Bytes) (hu : ':' ∉ u) :
    splitColon (u ++ ':' :: p) = u :: splitColon p := by
  induction u with
  | nil => simp [splitColon]
  | cons c rest ih =>
    have hc : c ≠ ':' := fun e => hu (e ▸ List.mem_cons_self c rest)
    have hrest : ':' ∉ rest := fun m => hu (List.mem_cons_of_mem _ m)
    simp only [List.cons_append, splitColon, if_neg hc, List.append_eq, ih hrest]

/-- Every list of bytes containing a colon splits at its first colon:
the part before it is colon-free. -/
theorem exists_first_colon (xs : Bytes) (h : ':' ∈ xs) :
    ∃ a b, xs = a ++ ':' :: b ∧ ':' ∉ a := by
  induction xs with
  | nil => cases h
  | cons c rest ih =>
    by_cases hc : c = ':'
    · exact ⟨[], rest, by simp [hc], by simp⟩
    · have hrest : ':' ∈ rest := by
        cases List.mem_cons.mp h with
        | inl e => exact absurd e.symm hc
        | inr m => exact m
      obtain ⟨a, b, hab, hna⟩ := ih hrest
      exact ⟨c :: a, b, by simp [hab], by
        intro m
        cases List.mem_cons.mp m with
        | inl e => exact hc e.symm
        | inr m2 => exact hna m2⟩

/-- A concrete cipher instance used to evaluate the operations at
concrete inputs: sealing prepends a marker byte, opening drops it. -/
def testCipher : Cipher where
  boxEncrypt := fun _ m => some ('#' :: m)
  boxDecrypt := fun _ c =>
    match c with
    | [] => none
    | _ :: m => some m
  seal_nonempty := by
    intro k m c h
    injection h with h
    exact h ▸ List.cons_ne_nil _ _

/-- The test cipher satisfies the round-trip law: opening a sealed message
returns the message. -/
theorem testCipher_roundtrip (key : Bytes) :
    ∀ m ct, testCipher.boxEncrypt key m = some ct →
      testCipher.boxDecrypt key ct = some m := by
  intro m ct h
  injection h with h
  subst h
  rfl

/-- Claim C1: for every key k, username u without a colon and password p
without a colon, reconstructing a field from the authPair produced by
creating a field with (k, u, p) succeeds, and opening the resulting
username and password handles yields u and p, assuming the cipher
round-trip law open(k, seal(k, m)) = m. -/
theorem C1_roundtrip (C : Cipher) (key u p : Bytes) (pwd : Enclave) (fld : Field)
    (hrt : ∀ m ct, C.boxEncrypt key m = some ct → C.boxDecrypt key ct = some m)
    (hu : ':' ∉ u) (hp : ':' ∉ p)
    (hpwd : pwd.contents = some p)
    (hok : (NewField C key u pwd).2 = some fld) :
    ∃ g : Field, ReconstructField C key fld.AuthPair = (.ok, some g) ∧
      g.openUser = some u ∧ g.openPwd = some p := by
  simp only [NewField, hpwd] at hok
  cases hE : C.boxEncrypt key (u ++ ':' :: p) with
  | none => rw [hE] at hok; simp at hok
  | some ct =>
    rw [hE] at hok
    simp only [Option.some.injEq] at hok
    subst hok
    have hne : ct ≠ [] := C.seal_nonempty _ _ _ hE
    have hdec : C.boxDecrypt key ct = some (u ++ ':' :: p) := hrt _ _ hE
    have hsplit : splitColon (u ++ ':' :: p) = [u, p] := by
      rw [splitColon_append u p hu, splitColon_of_no_colon p hp]
    refine ⟨{ Username := some (Enclave.guard u), Pwd := some (Enclave.guard p),
              AuthPair := ct, DeniablePairs := [] }, ?_, rfl, rfl⟩
    simp only [ReconstructField, RederiveAuthPair, if_neg hne, hdec, hsplit]

/-- Concrete field produced by creating with the test cipher, username a
and password b. -/
def fldW : Field :=
  { Username := some (Enclave.guard ['a'])
    Pwd := some (Enclave.guard ['b'])
    AuthPair := '#' :: 'a' :: ':' :: 'b' :: []
    DeniablePairs := [] }

/-- Witness for C1 at the concrete input key = [], u = [a], p = [b]. -/
theorem C1_roundtrip_witness :
    (∀ m ct, testCipher.boxEncrypt [] m = some ct →
       testCipher.boxDecrypt [] ct = some m) ∧
    ':' ∉ ['a'] ∧ ':' ∉ ['b'] ∧
    (Enclave.guard ['b']).contents = some ['b'] ∧
    (NewField testCipher [] ['a'] (Enclave.guard ['b'])).2 = some fldW ∧
    (∃ g : Field, ReconstructField testCipher [] fldW.AuthPair = (.ok, some g) ∧
      g.openUser = some ['a'] ∧ g.openPwd = some ['b']) :=
  ⟨testCipher_roundtrip [], by decide, by decide, rfl, rfl,
    C1_roundtrip testCipher [] ['a'] ['b'] (Enclave.guard ['b']) fldW
      (testCipher_roundtrip []) (by decide) (by decide) rfl rfl⟩

/-- Claim C2 (amended): when the decrypted plaintext contains a colon,
RederiveAuthPair sets the username to the colon-free part before the
first colon; the password is the entire remainder only when the plaintext
contains exactly one colon, and otherwise is the segment strictly between
the first and the second colon (the remainder is truncated at its next
colon). -/
theorem C2_first_two_components :
    (∀ (C : Cipher) (key : Bytes) (f : Field) (u v : Bytes),
        f.AuthPair ≠ [] → ':' ∉ u → ':' ∉ v →
        C.boxDecrypt key f.AuthPair = some (u ++ ':' :: v) →
        RederiveAuthPair C key f =
          (.ok, { f with Username := some (Enclave.guard u)
                         Pwd := some (Enclave.guard v) })) ∧
    (∀ (C : Cipher) (key : Bytes) (f : Field) (u v w : Bytes),
        f.AuthPair ≠ [] → ':' ∉ u → ':' ∉ v →
        C.boxDecrypt key f.AuthPair = some (u ++ ':' :: (v ++ ':' :: w)) →
        RederiveAuthPair C key f =
          (.ok, { f with Username := some (Enclave.guard u)
                         Pwd := some (Enclave.guard v) })) := by
  constructor
  · intro C key f u v hne hu hv hdec
    simp only [RederiveAuthPair, if_neg hne, hdec,
      splitColon_append u v hu, splitColon_of_no_colon v hv]
  · intro C key f u v w hne hu hv hdec
    simp only [RederiveAuthPair, if_neg hne, hdec,
      splitColon_append u (v ++ ':' :: w) hu, splitColon_append v w hv]

/-- Field whose stored authPair decrypts, under the test cipher, to the
plaintext alice:pa:ss of the claim's example. -/
def cexField : Field :=
  { Username := none, Pwd := none,
    AuthPair := '#' :: ("alice:pa:ss".toList), DeniablePairs := [] }

/-- Counterexample to C2 as stated: the decrypted plaintext alice:pa:ss
contains a colon, yet the rederived password handle opens to pa, not to
the entire remainder pa:ss after the first colon. -/
theorem C2_counterexample :
    testCipher.boxDecrypt [] cexField.AuthPair = some ("alice:pa:ss".toList) ∧
    (RederiveAuthPair testCipher [] cexField).1 = .ok ∧
    (RederiveAuthPair testCipher [] cexField).2.openUser = some ("alice".toList) ∧
    (RederiveAuthPair testCipher [] cexField).2.openPwd = some ("pa".toList) ∧
    (RederiveAuthPair testCipher [] cexField).2.openPwd ≠ some ("pa:ss".toList) :=
  ⟨rfl, rfl, rfl, rfl, by decide⟩

/-- Field whose stored authPair decrypts, under the test cipher, to the
two-colon plaintext a:b:c. -/
def cexField2 : Field :=
  { Username := none, Pwd := none,
    AuthPair := '#' :: 'a' :: ':' :: 'b' :: ':' :: 'c' :: [], DeniablePairs := [] }

/-- Witness for the amended C2 at a concrete two-colon plaintext: with
plaintext a:b:c the username handle holds a and the password handle holds
b. -/
theorem C2_first_two_components_witness :
    cexField2.AuthPair ≠ [] ∧ ':' ∉ ['a'] ∧ ':' ∉ ['b'] ∧
    testCipher.boxDecrypt [] cexField2.AuthPair =
      some (['a'] ++ ':' :: (['b'] ++ ':' :: ['c'])) ∧
    RederiveAuthPair testCipher [] cexField2 =
      (.ok, { cexField2 with Username := some (Enclave.guard ['a'])
                             Pwd := some (Enclave.guard ['b']) }) :=
  ⟨by decide, by decide, by decide, rfl,
    C2_first_two_components.2 testCipher [] cexField2 ['a'] ['b'] ['c']
      (by decide) (by decide) (by decide) rfl⟩

/-- Claim C3 (what the code actually does): when the authPair is non-empty
and decryption succeeds but the plaintext holds no colon, RederiveAuthPair
panics (out-of-range index 1 into the one-component split) instead of
returning a malformed-plaintext error; the field is unchanged at the point
of the panic. -/
theorem C3_no_separator_panics (C : Cipher) (key : Bytes) (f : Field) (pt : Bytes)
    (hne : f.AuthPair ≠ [])
    (hdec : C.boxDecrypt key f.AuthPair = some pt)
    (hnc : ':' ∉ pt) :
    RederiveAuthPair C key f = (.panicked, f) := by
  simp only [RederiveAuthPair, if_neg hne, hdec, splitColon_of_no_colon pt hnc]

/-- Field whose stored authPair decrypts, under the test cipher, to the
colon-free plaintext no. -/
def fldNoColon : Field :=
  { Username := none, Pwd := none,
    AuthPair := '#' :: 'n' :: 'o' :: [], DeniablePairs := [] }

/-- Witness for C3 at the concrete colon-free plaintext no. -/
theorem C3_no_separator_panics_witness :
    fldNoColon.AuthPair ≠ [] ∧
    testCipher.boxDecrypt [] fldNoColon.AuthPair = some ('n' :: 'o' :: []) ∧
    ':' ∉ ('n' :: 'o' :: []) ∧
    RederiveAuthPair testCipher [] fldNoColon = (.panicked, fldNoColon) :=
  ⟨by decide, rfl, by decide,
    C3_no_separator_panics testCipher [] fldNoColon ('n' :: 'o' :: [])
      (by decide) rfl (by decide)⟩

/-- Claim C4: reconstructing a field from an empty ciphertext byte
sequence fails with the no-secret error for every key and every cipher
(so no decryption of the empty blob is ever attempted), and no field is
returned. -/
theorem C4_missing_secret (C : Cipher) (key : Bytes) :
    ReconstructField C key [] = (.err .noSecretInField, none) := rfl

/-- Claim C5: atomicity on failure. Whenever any of the four core
operations returns an error, the prior state is unchanged: NewField and
ReconstructField return no field at all, and RederiveAuthPair and
AddDeniableSecret leave the receiver field exactly as it was. -/
theorem C5_atomic_on_error :
    (∀ (C : Cipher) (key u : Bytes) (pwd : Enclave) (e : FieldError),
        (NewField C key u pwd).1 = .err e → (NewField C key u pwd).2 = none) ∧
    (∀ (C : Cipher) (key c : Bytes) (e : FieldError),
        (ReconstructField C key c).1 = .err e →
          (ReconstructField C key c).2 = none) ∧
    (∀ (C : Cipher) (key : Bytes) (f : Field) (e : FieldError),
        (RederiveAuthPair C key f).1 = .err e →
          (RederiveAuthPair C key f).2 = f) ∧
    (∀ (f : Field) (u : Bytes) (pwd : Enclave) (e : FieldError),
        (AddDeniableSecret f u pwd).1 = .err e →
          (AddDeniableSecret f u pwd).2 = f) := by
  refine ⟨?_, ?_, ?_, ?_⟩
  · intro C key u pwd e h
    cases hpc : pwd.contents with
    | none => simp [NewField, hpc]
    | some p =>
      cases hE : C.boxEncrypt key (u ++ ':' :: p) with
      | none => simp [NewField, hpc, hE]
      | some ct => simp [NewField, hpc, hE] at h
  · intro C key c e h
    simp only [ReconstructField] at h ⊢
    rcases hR : RederiveAuthPair C key
        { Username := none, Pwd := none, AuthPair := c, DeniablePairs := [] }
      with ⟨s, g⟩
    cases s <;> simp_all
  · intro C key f e h
    by_cases hne : f.AuthPair = []
    · simp [RederiveAuthPair, hne]
    · cases hd : C.boxDecrypt key f.AuthPair with
      | none => simp [RederiveAuthPair, hne, hd]
      | some pt =>
        cases hs : splitColon pt with
        | nil => simp [RederiveAuthPair, hne, hd, hs]
        | cons a rest =>
          cases rest with
          | nil => simp [RederiveAuthPair, hne, hd, hs]
          | cons b rest2 => simp [RederiveAuthPair, hne, hd, hs] at h
  · intro f u pwd e h
    cases hpc : pwd.contents with
    | none => simp [AddDeniableSecret, hpc]
    | some p => simp [AddDeniableSecret, hpc] at h

/-- A field with all components at their zero values. -/
def emptyField : Field :=
  { Username := none, Pwd := none, AuthPair := [], DeniablePairs := [] }

/-- Witness for C5: rederiving a field whose authPair is empty fails with
the no-secret error and leaves the field unchanged. -/
theorem C5_atomic_on_error_witness :
    (RederiveAuthPair testCipher [] emptyField).1 = .err .noSecretInField ∧
    (RederiveAuthPair testCipher [] emptyField).2 = emptyField :=
  ⟨rfl, C5_atomic_on_error.2.2.1 testCipher [] emptyField .noSecretInField rfl⟩

/-- Claim C6: create postcondition. When opening the password enclave
yields cleartext p and sealing the plaintext u ++ colon ++ p under the key
yields ciphertext ct, NewField returns a field whose AuthPair is ct, whose
password component is the original enclave handle, whose username
component is a fresh guard of the bytes of u, and whose deniable-pair
list is empty. -/
theorem C6_create_post (C : Cipher) (key u p ct : Bytes) (pwd : Enclave)
    (hpwd : pwd.contents = some p)
    (henc : C.boxEncrypt key (u ++ ':' :: p) = some ct) :
    NewField C key u pwd =
      (.ok, some { Username := some (Enclave.guard u), Pwd := some pwd,
                   AuthPair := ct, DeniablePairs := [] }) := by
  simp only [NewField, hpwd, henc]

/-- Witness for C6 at the concrete input key = [], u = [a], p = [b]. -/
theorem C6_create_post_witness :
    (Enclave.guard ['b']).contents = some ['b'] ∧
    testCipher.boxEncrypt [] (['a'] ++ ':' :: ['b']) =
      some ('#' :: 'a' :: ':' :: 'b' :: []) ∧
    NewField testCipher [] ['a'] (Enclave.guard ['b']) =
      (.ok, some { Username := some (Enclave.guard ['a'])
                   Pwd := some (Enclave.guard ['b'])
                   AuthPair := '#' :: 'a' :: ':' :: 'b' :: []
                   DeniablePairs := [] }) :=
  ⟨rfl, rfl,
    C6_create_post testCipher [] ['a'] ['b'] ('#' :: 'a' :: ':' :: 'b' :: [])
      (Enclave.guard ['b']) rfl rfl⟩

/-- Claim C7: deniable append. When opening the password enclave yields
cleartext p, AddDeniableSecret succeeds, the deniable-pair list grows by
exactly one, and the list equals the old list with the raw bytes of
u ++ colon ++ p appended at the end (so all prior entries are unchanged
and in their original order). -/
theorem C7_deniable_append (f : Field) (u p : Bytes) (pwd : Enclave)
    (hpwd : pwd.contents = some p) :
    (AddDeniableSecret f u pwd).1 = .ok ∧
    ((AddDeniableSecret f u pwd).2).DeniablePairs.length
      = f.DeniablePairs.length + 1 ∧
    ((AddDeniableSecret f u pwd).2).DeniablePairs
      = f.DeniablePairs ++ [u ++ ':' :: p] := by
  simp [AddDeniableSecret, hpwd]

/-- Witness for C7 at the concrete input u = [b], p = [d] on the zero
field. -/
theorem C7_deniable_append_witness :
    (Enclave.guard ['d']).contents = some ['d'] ∧
    (AddDeniableSecret emptyField ['b'] (Enclave.guard ['d'])).1 = .ok ∧
    (AddDeniableSecret emptyField ['b'] (Enclave.guard ['d'])).2.DeniablePairs.length
      = emptyField.DeniablePairs.length + 1 ∧
    (AddDeniableSecret emptyField ['b'] (Enclave.guard ['d'])).2.DeniablePairs
      = emptyField.DeniablePairs ++ [['b'] ++ ':' :: ['d']] :=
  ⟨rfl, C7_deniable_append emptyField ['b'] ['d'] (Enclave.guard ['d']) rfl⟩

/-- Claim C8: rederive frame. A successful RederiveAuthPair changes only
the username and password handles; the AuthPair and the deniable-pair
list of the field are exactly the same afterwards. -/
theorem C8_rederive_frame (C : Cipher) (key : Bytes) (f : Field)
    (hne : f.AuthPair ≠ [])
    (hok : (RederiveAuthPair C key f).1 = .ok) :
    ((RederiveAuthPair C key f).2).AuthPair = f.AuthPair ∧
    ((RederiveAuthPair C key f).2).DeniablePairs = f.DeniablePairs := by
  cases hd : C.boxDecrypt key f.AuthPair with
  | none => simp [RederiveAuthPair, hne, hd] at hok
  | some pt =>
    cases hs : splitColon pt with
    | nil => simp [RederiveAuthPair, hne, hd, hs] at hok
    | cons a rest =>
      cases rest with
      | nil => simp [RederiveAuthPair, hne, hd, hs] at hok
      | cons b rest2 => simp [RederiveAuthPair, hne, hd, hs]

/-- Witness for C8 at a concrete field whose authPair decrypts to a:b. -/
theorem C8_rederive_frame_witness :
    fldW.AuthPair ≠ [] ∧
    (RederiveAuthPair testCipher [] fldW).1 = .ok ∧
    (RederiveAuthPair testCipher [] fldW).2.AuthPair = fldW.AuthPair ∧
    (RederiveAuthPair testCipher [] fldW).2.DeniablePairs = fldW.DeniablePairs :=
  ⟨by decide, rfl, C8_rederive_frame testCipher [] fldW (by decide) rfl⟩

/-- Claim C9: deniable-append frame. Whether it succeeds or fails,
AddDeniableSecret never changes the AuthPair, the username handle or the
password handle, and its only possible effect on the deniable-pair list
is appending a single entry at the end. -/
theorem C9_deniable_frame (f : Field) (u : Bytes) (pwd : Enclave) :
    ((AddDeniableSecret f u pwd).2).AuthPair = f.AuthPair ∧
    ((AddDeniableSecret f u pwd).2).Username = f.Username ∧
    ((AddDeniableSecret f u pwd).2).Pwd = f.Pwd ∧
    (((AddDeniableSecret f u pwd).2).DeniablePairs = f.DeniablePairs ∨
      ∃ x, ((AddDeniableSecret f u pwd).2).DeniablePairs
        = f.DeniablePairs ++ [x]) := by
  cases hpc : pwd.contents with
  | none => simp [AddDeniableSecret, hpc]
  | some p =>
    refine ⟨?_, ?_, ?_, Or.inr ⟨u ++ ':' :: p, ?_⟩⟩ <;>
      simp [AddDeniableSecret, hpc]

/-- Claim C10: no input validation in create. NewField returns an error
exactly when opening the password enclave fails or the cipher seal fails;
in particular every username is accepted unchecked, and for a username
containing a colon the sealed authPair no longer reconstructs to the
original username: rederiving it yields a strictly shorter username. -/
theorem C10_no_validation :
    (∀ (C : Cipher) (key u : Bytes) (pwd : Enclave),
        (∃ e, (NewField C key u pwd).1 = .err e) ↔
          (pwd.contents = none ∨
            ∃ p, pwd.contents = some p ∧
              C.boxEncrypt key (u ++ ':' :: p) = none)) ∧
    (∀ (C : Cipher) (key u p : Bytes) (pwd : Enclave) (fld : Field),
        ':' ∈ u →
        (∀ m ct, C.boxEncrypt key m = some ct → C.boxDecrypt key ct = some m) →
        pwd.contents = some p →
        (NewField C key u pwd).2 = some fld →
        ∃ g : Field, ReconstructField C key fld.AuthPair = (.ok, some g) ∧
          g.openUser ≠ some u) := by
  constructor
  · intro C key u pwd
    cases hpc : pwd.contents with
    | none => simp [NewField, hpc]
    | some p =>
      cases hE : C.boxEncrypt key (u ++ ':' :: p) with
      | none => simp [NewField, hpc, hE]
      | some ct => simp [NewField, hpc, hE]
  · intro C key u p pwd fld hmem hrt hpc hok
    obtain ⟨u1, u2, hu, hnu1⟩ := exists_first_colon u hmem
    simp only [NewField, hpc] at hok
    cases hE : C.boxEncrypt key (u ++ ':' :: p) with
    | none => rw [hE] at hok; simp at hok
    | some ct =>
      rw [hE] at hok
      simp only [Option.some.injEq] at hok
      subst hok
      have hne : ct ≠ [] := C.seal_nonempty _ _ _ hE
      have hdec : C.boxDecrypt key ct = some (u ++ ':' :: p) := hrt _ _ hE
      have hplain : u ++ ':' :: p = u1 ++ ':' :: (u2 ++ ':' :: p) := by
        rw [hu]; simp
      have hsplit : splitColon (u ++ ':' :: p)
          = u1 :: splitColon (u2 ++ ':' :: p) := by
        rw [hplain, splitColon_append u1 _ hnu1]
      rcases hrest : splitColon (u2 ++ ':' :: p) with _ | ⟨b, rest⟩
      · exact absurd hrest (splitColon_ne_nil _)
      · refine ⟨{ Username := some (Enclave.guard u1)
                  Pwd := some (Enclave.guard b)
                  AuthPair := ct
                  DeniablePairs := [] }, ?_, ?_⟩
        · simp only [ReconstructField, RederiveAuthPair, if_neg hne, hdec,
            hsplit, hrest]
        · intro hcon
          have h1 : u1 = u := by
            simpa [Field.openUser, Enclave.guard] using hcon
          have hlen := congrArg List.length h1
          rw [hu] at hlen
          simp only [List.length_append, List.length_cons] at hlen
          omega

/-- Concrete field created with the colon-bearing username a:b and
password c under the test cipher. -/
def fldColonUser : Field :=
  { Username := some (Enclave.guard ('a' :: ':' :: 'b' :: []))
    Pwd := some (Enclave.guard ['c'])
    AuthPair := '#' :: 'a' :: ':' :: 'b' :: ':' :: 'c' :: []
    DeniablePairs := [] }

/-- Witness for C10 at the concrete colon-bearing username a:b: creation
succeeds and the reconstructed username differs from a:b. -/
theorem C10_no_validation_witness :
    ':' ∈ ('a' :: ':' :: 'b' :: []) ∧
    (Enclave.guard ['c']).contents = some ['c'] ∧
    (NewField testCipher [] ('a' :: ':' :: 'b' :: []) (Enclave.guard ['c'])).2
      = some fldColonUser ∧
    (∃ g : Field, ReconstructField testCipher [] fldColonUser.AuthPair
        = (.ok, some g) ∧ g.openUser ≠ some ('a' :: ':' :: 'b' :: [])) :=
  ⟨by decide, rfl, rfl,
    C10_no_validation.2 testCipher [] ('a' :: ':' :: 'b' :: []) ['c']
      (Enclave.guard ['c']) fldColonUser (by decide)
      (testCipher_roundtrip []) rfl rfl⟩

end Ghostpass
